import Mathlib

set_option autoImplicit false

/-!
Shallow embedding of src/dirwatcher.py.

The program keeps a module-level dict from filename to line offset, a
reconciliation function watch_dir (src lines 19-45), an incremental file
scanner find_magic (src lines 47-63) and a polling loop main
(src lines 91-146).  We model the filesystem seen by one cycle as a value:
either the directory listing fails with an errno, or it yields a list of
named entries whose content is a list of lines (content none means the
file cannot be opened).  Log lines and sleep calls become Event values, so
the observable behaviour of a cycle is a pure function of the filesystem
value and the watch-list.
-/

namespace DirWatcher

/-- Errno values distinguished by the program: ENOENT (checked at
src line 122) and, representing every other errno, EACCES. -/
inductive Errno where
  | enoent
  | eacces
  deriving DecidableEq, Repr

/-- Exceptions that can escape one watch_dir call: an OSError carrying an
errno (from os.listdir at src line 31 or open at src line 56), or the
TypeError raised by evaluating the expression files[files] at src line 43,
which indexes the dict with itself (a dict is unhashable). -/
inductive PyErr where
  | osError (e : Errno)
  | typeError
  deriving DecidableEq, Repr

/-- Observable events: watch-list log lines, match log lines, the error
log lines of the polling loop and its time.sleep calls. -/
inductive Event where
  | added (name : String)
  | removed (name : String)
  | found (name : String) (magic : String) (line : Nat)
  | errorDirNotFound (path : String)
  | errorOS (e : Errno)
  | errorUnhandled
  | sleep (secs : Nat)
  deriving DecidableEq, Repr

/-- Whether an event is a magic-text match log line (src lines 60-62). -/
def Event.isFound : Event → Bool
  | Event.found _ _ _ => true
  | _ => false

/-- Whether an event is one of the error log lines of the polling loop
(src lines 123, 126, 128). -/
def Event.isError : Event → Bool
  | Event.errorDirNotFound _ => true
  | Event.errorOS _ => true
  | Event.errorUnhandled => true
  | _ => false

/-- One directory entry: a filename and, when the file can be opened, its
list of lines. -/
structure DirEntry where
  name : String
  content : Option (List String)
  deriving DecidableEq, Repr

/-- The filesystem state seen by one cycle: the watched directory either
fails to list with an errno or yields its entries. -/
structure FS where
  dir : Except Errno (List DirEntry)
  deriving Repr

/-- Model of os.listdir(args.path) at src line 31: the names of the
entries, or an OSError. -/
def listdir (fs : FS) : Except PyErr (List String) :=
  match fs.dir with
  | Except.error e => Except.error (PyErr.osError e)
  | Except.ok entries => Except.ok (entries.map DirEntry.name)

/-- Model of open(filename) at src line 56 applied to a directory entry
content: an unopenable file (content none) raises OSError ENOENT. -/
def openLines (content : Option (List String)) : Except PyErr (List String) :=
  match content with
  | none => Except.error (PyErr.osError Errno.enoent)
  | some ls => Except.ok ls

/-- Model of the Python substring test, the expression
magic_word in line at src line 59. -/
def containsStr (line magic : String) : Bool :=
  decide (List.IsInfix magic.toList line.toList)

/-- Model of the Python test file.endswith(args.ext) at src line 33: a
suffix test on the characters. -/
def endsWithStr (s ext : String) : Bool :=
  decide (List.IsSuffix ext.toList s.toList)

/-- Loop of find_magic, src lines 57-62: for line_number, line in
enumerate(file).  Carries the current value of the Python variable
line_number (0 before the first iteration), the enumeration index of the
next line, and the events logged so far. -/
def find_magic_go (filename magic_word : String) (starting_line : Nat) :
    Nat → Nat → List Event → List String → Nat × List Event
  | line_number, _, evs, [] => (line_number, evs)
  | _, i, evs, line :: rest =>
      let evs2 :=
        if starting_line ≤ i ∧ containsStr line magic_word = true then
          evs ++ [Event.found filename magic_word (i + 1)]
        else evs
      find_magic_go filename magic_word starting_line i (i + 1) evs2 rest

/-- Model of find_magic, src lines 47-63, on the lines of an opened file:
line_number starts at 0, the loop sets it to each enumeration index and
logs a match for every line at or past starting_line containing
magic_word, and the function returns line_number + 1 together with the
logged match events. -/
def find_magic (filename : String) (lines : List String) (starting_line : Nat)
    (magic_word : String) : Nat × List Event :=
  let r := find_magic_go filename magic_word starting_line 0 0 [] lines
  (r.1 + 1, r.2)

/-- Whether the dict files has the given key, the Python test
file not in files at src line 33. -/
def hasKey (files : List (String × Nat)) (f : String) : Bool :=
  files.any (fun p => p.1 == f)

/-- Add phase of watch_dir, src lines 32-35: every listed name that ends
with the extension and is not yet a key is inserted with offset 0 and an
added log line is emitted, in listing order. -/
def addPhase (ext : String) :
    List (String × Nat) → List Event → List String → List (String × Nat) × List Event
  | files, evs, [] => (files, evs)
  | files, evs, f :: rest =>
      if endsWithStr f ext && !hasKey files f then
        addPhase ext (files ++ [(f, 0)]) (evs ++ [Event.added f]) rest
      else
        addPhase ext files evs rest

/-- Remove phase of watch_dir, src lines 36-39: iterating a snapshot
list(files) of the keys, every key absent from the directory listing is
deleted and a removed log line is emitted. -/
def removePhase (file_list : List String) :
    List (String × Nat) → List Event → List String → List (String × Nat) × List Event
  | files, evs, [] => (files, evs)
  | files, evs, f :: rest =>
      if file_list.contains f then
        removePhase file_list files evs rest
      else
        removePhase file_list (files.filter (fun p => p.1 != f)) (evs ++ [Event.removed f]) rest

/-- Result of one watch_dir call: the dict files afterwards, the log lines
emitted before any exception, and the exception if one escaped. -/
structure CycleOut where
  files : List (String × Nat)
  events : List Event
  err : Option PyErr
  deriving DecidableEq, Repr

/-- Scan phase of watch_dir, src lines 40-45: for the first key of the
dict the argument expression files[files] is evaluated, which raises
TypeError because a dict is unhashable; so with a non-empty dict the phase
raises before any find_magic call, before any open and before any offset
assignment, and with an empty dict the loop body never runs.  Either way
the dict and the log are untouched; the phase only produces the optional
exception. -/
def scanPhase (files : List (String × Nat)) : Option PyErr :=
  match files with
  | [] => none
  | _ :: _ => some PyErr.typeError

/-- Model of watch_dir, src lines 19-45: list the directory, run the add
phase (src lines 32-35), the remove phase (src lines 36-39) on a snapshot
of the keys, then the scan phase (src lines 40-45). -/
def watch_dir (fs : FS) (ext magic_text : String) (files0 : List (String × Nat)) : CycleOut :=
  match listdir fs with
  | Except.error e => { files := files0, events := [], err := some e }
  | Except.ok file_list =>
      { files := (removePhase file_list (addPhase ext files0 [] file_list).1
            [] ((addPhase ext files0 [] file_list).1.map Prod.fst)).1,
        events := (addPhase ext files0 [] file_list).2 ++
          (removePhase file_list (addPhase ext files0 [] file_list).1
            [] ((addPhase ext files0 [] file_list).1.map Prod.fst)).2,
        err := scanPhase (removePhase file_list (addPhase ext files0 [] file_list).1
            [] ((addPhase ext files0 [] file_list).1.map Prod.fst)).1 }

/-- Exception dispatch of the polling loop, src lines 119-128: an OSError
with errno ENOENT logs the directory-not-found line naming the watched
path and sleeps 2 seconds; any other OSError logs the error; any other
exception logs the unhandled-exception line. -/
def handle_error (path : String) : PyErr → List Event
  | PyErr.osError Errno.enoent => [Event.errorDirNotFound path, Event.sleep 2]
  | PyErr.osError e => [Event.errorOS e]
  | PyErr.typeError => [Event.errorUnhandled]

/-- State of the polling loop: the dict files and the log so far. -/
structure LoopState where
  files : List (String × Nat)
  log : List Event
  deriving DecidableEq, Repr

/-- Log lines of the except clauses for one cycle: nothing when no
exception escaped watch_dir, the handle_error dispatch otherwise. -/
def errEvents (path : String) : Option PyErr → List Event
  | none => []
  | some e => handle_error path e

/-- One iteration of the while body, src lines 115-131: run watch_dir,
dispatch any escaped exception through the except clauses, then sleep the
configured interval. -/
def mainStep (path ext magic : String) (interval : Nat) (fs : FS) (st : LoopState) : LoopState :=
  { files := (watch_dir fs ext magic st.files).files,
    log := st.log ++ (watch_dir fs ext magic st.files).events ++
      errEvents path (watch_dir fs ext magic st.files).err ++ [Event.sleep interval] }

/-- The polling loop, src line 115: while not exit_flag.  Each schedule
element supplies the value of exit_flag read at the loop head and the
filesystem state for that cycle; a true flag ends the loop at once. -/
def mainRun (path ext magic : String) (interval : Nat) (st : LoopState) :
    List (Bool × FS) → LoopState
  | [] => st
  | (exit_flag, fs) :: rest =>
      if exit_flag then st
      else mainRun path ext magic interval (mainStep path ext magic interval fs st) rest

/-! Characterization of the find_magic loop. -/

/-- Match events of the scanner on a list of lines whose first line has
the given enumeration index: one found event per line at or past
starting_line that contains the magic word. -/
def matchesFrom (filename magic_word : String) (starting_line : Nat) :
    Nat → List String → List Event
  | _, [] => []
  | i, line :: rest =>
      (if starting_line ≤ i ∧ containsStr line magic_word = true then
        [Event.found filename magic_word (i + 1)]
      else [])
        ++ matchesFrom filename magic_word starting_line (i + 1) rest

theorem find_magic_go_spec (fn mw : String) (sl : Nat) (lines : List String) :
    ∀ (i ln : Nat) (evs : List Event),
      find_magic_go fn mw sl ln i evs lines
        = ((if lines.isEmpty then ln else i + lines.length - 1),
           evs ++ matchesFrom fn mw sl i lines) := by
  induction lines with
  | nil => intro i ln evs; simp [find_magic_go, matchesFrom]
  | cons line rest ih =>
    intro i ln evs
    simp only [find_magic_go, matchesFrom, ih, List.isEmpty_cons, List.length_cons,
      Prod.mk.injEq]
    refine ⟨?_, ?_⟩
    · cases rest with
      | nil => simp
      | cons l2 r2 => simp; omega
    · by_cases h : sl ≤ i ∧ containsStr line mw = true <;> simp [h]

theorem find_magic_spec (fn mw : String) (sl : Nat) (lines : List String) :
    find_magic fn lines sl mw
      = ((if lines.isEmpty then 0 else lines.length - 1) + 1,
         matchesFrom fn mw sl 0 lines) := by
  simp [find_magic, find_magic_go_spec]

theorem find_magic_fst_of_ne_nil (fn mw : String) (sl : Nat) (lines : List String)
    (h : lines ≠ []) : (find_magic fn lines sl mw).1 = lines.length := by
  rw [find_magic_spec]
  simp only [List.isEmpty_eq_true]
  rw [if_neg h]
  have : 1 ≤ lines.length := List.length_pos.mpr h
  omega

theorem matchesFrom_append (fn mw : String) (sl : Nat) (xs ys : List String) :
    ∀ i, matchesFrom fn mw sl i (xs ++ ys)
      = matchesFrom fn mw sl i xs ++ matchesFrom fn mw sl (i + xs.length) ys := by
  induction xs with
  | nil => intro i; simp [matchesFrom]
  | cons x xs ih =>
    intro i
    have hidx : i + 1 + xs.length = i + (xs.length + 1) := by omega
    simp only [List.cons_append, matchesFrom, List.append_eq, List.length_cons,
      List.append_assoc]
    rw [ih (i + 1), hidx]

theorem matchesFrom_skipped (fn mw : String) (sl : Nat) (xs : List String) :
    ∀ i, i + xs.length ≤ sl → matchesFrom fn mw sl i xs = [] := by
  induction xs with
  | nil => intro i _; rfl
  | cons x xs ih =>
    intro i h
    simp only [List.length_cons] at h
    have h1 : ¬ (sl ≤ i ∧ containsStr x mw = true) := by
      intro hc
      omega
    simp only [matchesFrom, if_neg h1, List.nil_append]
    exact ih (i + 1) (by omega)

theorem matchesFrom_of_no_match (fn mw : String) (sl : Nat) (xs : List String)
    (h : ∀ l ∈ xs, containsStr l mw = false) :
    ∀ i, matchesFrom fn mw sl i xs = [] := by
  induction xs with
  | nil => intro i; rfl
  | cons x xs ih =>
    intro i
    have hx : containsStr x mw = false := h x (by simp)
    have h1 : ¬ (sl ≤ i ∧ containsStr x mw = true) := by
      intro hc
      rw [hx] at hc
      exact Bool.false_ne_true hc.2
    simp only [matchesFrom, if_neg h1, List.nil_append]
    exact ih (fun l hl => h l (by simp [hl])) (i + 1)

/-! Structural lemmas for the reconciliation phases. -/

theorem addPhase_spec (ext : String) (fl : List String) :
    ∀ files evs, ∃ newFiles newEvs,
      addPhase ext files evs fl = (files ++ newFiles, evs ++ newEvs)
      ∧ (∀ p ∈ newFiles, p.2 = 0 ∧ endsWithStr p.1 ext = true)
      ∧ (∀ ev ∈ newEvs, ∃ n, ev = Event.added n ∧ endsWithStr n ext = true) := by
  induction fl with
  | nil =>
    intro files evs
    exact ⟨[], [], by simp [addPhase], by simp, by simp⟩
  | cons f rest ih =>
    intro files evs
    by_cases hc : (endsWithStr f ext && !hasKey files f) = true
    · obtain ⟨nf, ne, heq, hnf, hne⟩ := ih (files ++ [(f, 0)]) (evs ++ [Event.added f])
      have hext : endsWithStr f ext = true := (Bool.and_eq_true _ _ |>.mp hc).1
      refine ⟨(f, 0) :: nf, Event.added f :: ne, ?_, ?_, ?_⟩
      · simp only [addPhase, if_pos hc, heq, List.append_assoc, List.singleton_append]
      · intro p hp
        rcases List.mem_cons.mp hp with h | h
        · subst h; exact ⟨rfl, hext⟩
        · exact hnf p h
      · intro ev hev
        rcases List.mem_cons.mp hev with h | h
        · exact ⟨f, h, hext⟩
        · exact hne ev h
    · obtain ⟨nf, ne, heq, hnf, hne⟩ := ih files evs
      exact ⟨nf, ne, by simp only [addPhase, if_neg hc, heq], hnf, hne⟩

theorem removePhase_spec (fl : List String) (snap : List String) :
    ∀ files evs,
      (∀ p, p ∈ (removePhase fl files evs snap).1 → p ∈ files)
      ∧ (∀ p, p ∈ files → fl.contains p.1 = true → p ∈ (removePhase fl files evs snap).1)
      ∧ (∀ ev, ev ∈ (removePhase fl files evs snap).2 →
          ev ∈ evs ∨ ∃ n, ev = Event.removed n ∧ fl.contains n = false) := by
  induction snap with
  | nil =>
    intro files evs
    refine ⟨fun p hp => ?_, fun p hp _ => ?_, fun ev hev => ?_⟩
    · simpa [removePhase] using hp
    · simpa [removePhase] using hp
    · exact Or.inl (by simpa [removePhase] using hev)
  | cons f rest ih =>
    intro files evs
    by_cases hc : fl.contains f = true
    · obtain ⟨h1, h2, h3⟩ := ih files evs
      refine ⟨?_, ?_, ?_⟩ <;> simp only [removePhase, if_pos hc]
      · exact h1
      · exact h2
      · exact h3
    · obtain ⟨h1, h2, h3⟩ :=
        ih (files.filter (fun p => p.1 != f)) (evs ++ [Event.removed f])
      have hcf : fl.contains f = false := Bool.eq_false_iff.mpr hc
      refine ⟨?_, ?_, ?_⟩ <;> simp only [removePhase, if_neg hc]
      · intro p hp
        exact List.mem_of_mem_filter (h1 p hp)
      · intro p hp hfl
        have hne : (p.1 != f) = true := by
          have : p.1 ≠ f := by
            intro h
            rw [h, hcf] at hfl
            exact Bool.false_ne_true hfl
          simpa using this
        exact h2 p (List.mem_filter.mpr ⟨hp, hne⟩) hfl
      · intro ev hev
        rcases h3 ev hev with h | h
        · rcases List.mem_append.mp h with h | h
          · exact Or.inl h
          · have : ev = Event.removed f := by simpa using h
            exact Or.inr ⟨f, this, hcf⟩
        · exact Or.inr h

/-! Facts about one watch_dir call. -/

theorem watch_dir_files_mem (fs : FS) (ext magic : String) (files0 : List (String × Nat)) :
    ∀ p ∈ (watch_dir fs ext magic files0).files,
      p ∈ files0 ∨ (p.2 = 0 ∧ endsWithStr p.1 ext = true) := by
  intro p hp
  unfold watch_dir at hp
  cases hfs : listdir fs with
  | error e =>
    rw [hfs] at hp
    exact Or.inl hp
  | ok file_list =>
    rw [hfs] at hp
    have h1 := (removePhase_spec file_list ((addPhase ext files0 [] file_list).1.map Prod.fst)
      (addPhase ext files0 [] file_list).1 []).1 p hp
    obtain ⟨nf, ne, heq, hnf, _⟩ := addPhase_spec ext file_list files0 []
    rw [heq] at h1
    rcases List.mem_append.mp h1 with h | h
    · exact Or.inl h
    · exact Or.inr (hnf p h)

theorem watch_dir_events_mem (fs : FS) (ext magic : String) (files0 : List (String × Nat)) :
    ∀ ev ∈ (watch_dir fs ext magic files0).events,
      (∃ n, ev = Event.added n ∧ endsWithStr n ext = true) ∨ ∃ n, ev = Event.removed n := by
  intro ev hev
  unfold watch_dir at hev
  cases hfs : listdir fs with
  | error e =>
    rw [hfs] at hev
    exact absurd hev (List.not_mem_nil ev)
  | ok file_list =>
    rw [hfs] at hev
    rcases List.mem_append.mp hev with h | h
    · obtain ⟨nf, ne, heq, _, hne⟩ := addPhase_spec ext file_list files0 []
      rw [heq] at h
      have h2 : ev ∈ ne := by simpa using h
      obtain ⟨n, hn, hext⟩ := hne ev h2
      exact Or.inl ⟨n, hn, hext⟩
    · have h3 := (removePhase_spec file_list ((addPhase ext files0 [] file_list).1.map Prod.fst)
        (addPhase ext files0 [] file_list).1 []).2.2 ev h
      rcases h3 with h | ⟨n, hn, _⟩
      · exact absurd h (List.not_mem_nil ev)
      · exact Or.inr ⟨n, hn⟩

theorem watch_dir_no_found (fs : FS) (ext magic : String) (files0 : List (String × Nat)) :
    ∀ ev ∈ (watch_dir fs ext magic files0).events, ev.isFound = false := by
  intro ev hev
  rcases watch_dir_events_mem fs ext magic files0 ev hev with ⟨n, hn, _⟩ | ⟨n, hn⟩ <;>
    subst hn <;> rfl

theorem watch_dir_keep (fs : FS) (ext magic : String) (files0 : List (String × Nat))
    (entries : List DirEntry) (p : String × Nat) (h : fs.dir = Except.ok entries)
    (hp : p ∈ files0) (hl : (entries.map DirEntry.name).contains p.1 = true) :
    p ∈ (watch_dir fs ext magic files0).files
    ∧ Event.removed p.1 ∉ (watch_dir fs ext magic files0).events := by
  have hfs : listdir fs = Except.ok (entries.map DirEntry.name) := by
    unfold listdir
    rw [h]
  constructor
  · unfold watch_dir
    rw [hfs]
    obtain ⟨nf, ne, heq, _, _⟩ := addPhase_spec ext (entries.map DirEntry.name) files0 []
    have hpa : p ∈ (addPhase ext files0 [] (entries.map DirEntry.name)).1 := by
      rw [heq]
      exact List.mem_append.mpr (Or.inl hp)
    exact (removePhase_spec (entries.map DirEntry.name)
      ((addPhase ext files0 [] (entries.map DirEntry.name)).1.map Prod.fst)
      (addPhase ext files0 [] (entries.map DirEntry.name)).1 []).2.1 p hpa hl
  · intro hev
    rcases watch_dir_events_mem fs ext magic files0 (Event.removed p.1) hev with
      ⟨n, hn, _⟩ | ⟨n, hn⟩
    · exact Event.noConfusion hn
    · have hname : p.1 = n := by
        injection hn
      unfold watch_dir at hev
      rw [hfs] at hev
      rcases List.mem_append.mp hev with hcase | hcase
      · obtain ⟨nf, ne, heq, _, hne⟩ := addPhase_spec ext (entries.map DirEntry.name) files0 []
        rw [heq] at hcase
        have h2 : Event.removed p.1 ∈ ne := by simpa using hcase
        obtain ⟨m, hm, _⟩ := hne _ h2
        exact Event.noConfusion hm
      · have h3 := (removePhase_spec (entries.map DirEntry.name)
          ((addPhase ext files0 [] (entries.map DirEntry.name)).1.map Prod.fst)
          (addPhase ext files0 [] (entries.map DirEntry.name)).1 []).2.2 _ hcase
        rcases h3 with hcase2 | ⟨m, hm, hmf⟩
        · exact absurd hcase2 (List.not_mem_nil _)
        · have hpm : p.1 = m := by
            injection hm
          rw [hpm, hmf] at hl
          exact Bool.false_ne_true hl

/-! Facts about the polling loop. -/

theorem handle_error_no_found (path : String) (e : PyErr) :
    ∀ ev ∈ handle_error path e, ev.isFound = false := by
  intro ev hev
  cases e with
  | osError e2 =>
    cases e2 with
    | enoent =>
      rcases (by simpa [handle_error] using hev : ev = Event.errorDirNotFound path ∨
        ev = Event.sleep 2) with h | h <;> subst h <;> rfl
    | eacces =>
      have h : ev = Event.errorOS Errno.eacces := by simpa [handle_error] using hev
      subst h
      rfl
  | typeError =>
    have h : ev = Event.errorUnhandled := by simpa [handle_error] using hev
    subst h
    rfl

theorem handle_error_has_error (path : String) (e : PyErr) :
    ∃ ev ∈ handle_error path e, ev.isError = true := by
  cases e with
  | osError e2 =>
    cases e2 with
    | enoent => exact ⟨Event.errorDirNotFound path, by simp [handle_error], rfl⟩
    | eacces => exact ⟨Event.errorOS Errno.eacces, by simp [handle_error], rfl⟩
  | typeError => exact ⟨Event.errorUnhandled, by simp [handle_error], rfl⟩

theorem errEvents_no_found (path : String) (oe : Option PyErr) :
    ∀ ev ∈ errEvents path oe, ev.isFound = false := by
  intro ev hev
  cases oe with
  | none => exact absurd hev (List.not_mem_nil ev)
  | some e => exact handle_error_no_found path e ev hev

theorem mainStep_inv (path ext magic : String) (interval : Nat) (fs : FS) (st : LoopState)
    (hfiles : ∀ p ∈ st.files, p.2 = 0) (hlog : ∀ ev ∈ st.log, ev.isFound = false) :
    (∀ p ∈ (mainStep path ext magic interval fs st).files, p.2 = 0)
    ∧ (∀ ev ∈ (mainStep path ext magic interval fs st).log, ev.isFound = false) := by
  constructor
  · intro p hp
    rcases watch_dir_files_mem fs ext magic st.files p hp with h | ⟨h, _⟩
    · exact hfiles p h
    · exact h
  · intro ev hev
    simp only [mainStep, List.append_assoc, List.mem_append] at hev
    rcases hev with h | h | h | h
    · exact hlog ev h
    · exact watch_dir_no_found fs ext magic st.files ev h
    · exact errEvents_no_found path _ ev h
    · have : ev = Event.sleep interval := by simpa using h
      subst this
      rfl

theorem mainRun_inv (path ext magic : String) (interval : Nat) (sched : List (Bool × FS)) :
    ∀ st : LoopState, (∀ p ∈ st.files, p.2 = 0) → (∀ ev ∈ st.log, ev.isFound = false) →
      (∀ p ∈ (mainRun path ext magic interval st sched).files, p.2 = 0)
      ∧ (∀ ev ∈ (mainRun path ext magic interval st sched).log, ev.isFound = false) := by
  induction sched with
  | nil =>
    intro st hfiles hlog
    exact ⟨hfiles, hlog⟩
  | cons c rest ih =>
    intro st hfiles hlog
    rcases c with ⟨flag, fs⟩
    cases flag with
    | true => simpa [mainRun] using And.intro hfiles hlog
    | false =>
      have hstep := mainStep_inv path ext magic interval fs st hfiles hlog
      simpa [mainRun] using ih (mainStep path ext magic interval fs st) hstep.1 hstep.2

theorem mainStep_key_absent (path ext magic : String) (interval : Nat) (fs : FS)
    (st : LoopState) (name : String) (hext : endsWithStr name ext = false)
    (h0 : ∀ p ∈ st.files, p.1 ≠ name) :
    ∀ p ∈ (mainStep path ext magic interval fs st).files, p.1 ≠ name := by
  intro p hp
  rcases watch_dir_files_mem fs ext magic st.files p hp with h | ⟨_, hend⟩
  · exact h0 p h
  · intro he
    rw [he, hext] at hend
    exact Bool.false_ne_true hend

theorem mainRun_key_absent (path ext magic : String) (interval : Nat) (name : String)
    (hext : endsWithStr name ext = false) (sched : List (Bool × FS)) :
    ∀ st : LoopState, (∀ p ∈ st.files, p.1 ≠ name) →
      ∀ p ∈ (mainRun path ext magic interval st sched).files, p.1 ≠ name := by
  induction sched with
  | nil =>
    intro st h0
    exact h0
  | cons c rest ih =>
    intro st h0
    rcases c with ⟨flag, fs⟩
    cases flag with
    | true => simpa [mainRun] using h0
    | false =>
      simpa [mainRun] using
        ih (mainStep path ext magic interval fs st)
          (mainStep_key_absent path ext magic interval fs st name hext h0)

theorem mainRun_all_false (path ext magic : String) (interval : Nat) (sched : List FS) :
    ∀ st : LoopState,
      mainRun path ext magic interval st (sched.map (fun fs => (false, fs)))
        = sched.foldl (fun s fs => mainStep path ext magic interval fs s) st := by
  induction sched with
  | nil => intro st; rfl
  | cons fs rest ih =>
    intro st
    simpa [mainRun] using ih (mainStep path ext magic interval fs st)

/-! Claim theorems. -/

/-- Claim C1.  The spec scenario says: from an empty watch-list, one cycle
over a directory holding a.txt with 3 lines whose third line contains the
magic text hello yields watch-list a.txt at offset 3, one added event and
one match event at line 3.  Evaluating watch_dir at exactly that input
shows what the code does instead: a.txt is added with offset 0, exactly
one added event is emitted, but no match event ever appears and the
offset stays 0, because the scan phase raises TypeError at the expression
files[files] before calling find_magic.  This exhibits the code bug that
refutes the claimed offset 3 and match event. -/
theorem claim1_scenario_yields_offset_zero_and_no_match :
    watch_dir (FS.mk (Except.ok [DirEntry.mk "a.txt" (some ["one", "two", "xx hello yy"])]))
      ".txt" "hello" []
      = { files := [("a.txt", 0)], events := [Event.added "a.txt"],
          err := some PyErr.typeError } := by
  decide

/-- Claim C2.  In every state reachable by running cycles from the initial
empty watch-list, every stored offset is 0 and no match event has ever
been logged: the scan phase raises TypeError on any non-empty dict before
any scanner call and before any offset assignment, so offsets can only be
the 0 written at insertion and find_magic is never reached. -/
theorem claim2_reachable_offsets_zero_and_no_match (path ext magic : String) (interval : Nat)
    (sched : List (Bool × FS)) :
    ((mainRun path ext magic interval (LoopState.mk [] []) sched).files.all
      fun p => p.2 == 0) = true
    ∧ ((mainRun path ext magic interval (LoopState.mk [] []) sched).log.all
      fun ev => !ev.isFound) = true := by
  have h := mainRun_inv path ext magic interval sched (LoopState.mk [] [])
    (fun p hp => absurd hp (List.not_mem_nil p))
    (fun ev hev => absurd hev (List.not_mem_nil ev))
  constructor
  · rw [List.all_eq_true]
    intro p hp
    simpa using h.1 p hp
  · rw [List.all_eq_true]
    intro ev hev
    simp [h.2 ev hev]

/-- Claim C3.  The claim says the scan returns the total number of lines
of the file, and 0 for an empty file.  Evaluating find_magic on an empty
file refutes it: line_number is initialised to 0, the loop body never
runs, and the function returns line_number + 1 = 1, not the true line
count 0 (it does emit no match events). -/
theorem claim3_empty_file_returns_one :
    find_magic "empty.txt" [] 0 "hello" = (1, []) := by
  decide

/-- Claim C6.  The claim says a tracked file that cannot be opened leaves
its offset unchanged, keeps its entry, and every other tracked file is
still scanned in the same cycle.  Evaluating watch_dir on a watch-list of
two tracked files whose first is unreadable shows what the code does: the
offsets are indeed unchanged and both entries kept, but the cycle ends in
the TypeError from files[files] before any file is opened, so no open is
attempted, no scan of the other file happens and no match event can be
produced. -/
theorem claim6_unreadable_file_cycle_aborts :
    watch_dir (FS.mk (Except.ok [DirEntry.mk "a.txt" none, DirEntry.mk "b.txt" (some ["x"])]))
      ".txt" "hello" [("a.txt", 0), ("b.txt", 0)]
      = { files := [("a.txt", 0), ("b.txt", 0)], events := [],
          err := some PyErr.typeError } := by
  decide

/-- Claim C10.  Opening a missing tracked file (src line 56) raises
OSError with errno ENOENT, the very same error value as a failed listing
of a missing watched directory (src line 31); and the except dispatch of
the polling loop (src lines 119-124) maps that error to the log line
naming the watched path as a missing directory followed by the 2 second
grace sleep.  So a missing file is indistinguishable in handling from a
missing watched directory. -/
theorem claim10_file_enoent_handled_as_missing_directory (path : String) :
    openLines none = Except.error (PyErr.osError Errno.enoent)
    ∧ openLines none = listdir (FS.mk (Except.error Errno.enoent))
    ∧ handle_error path (PyErr.osError Errno.enoent)
        = [Event.errorDirNotFound path, Event.sleep 2] :=
  ⟨rfl, rfl, rfl⟩

/-- Claim C4.  Scanning a file consisting of prior lines followed by
appended lines exactly one of which contains the magic text, starting
from an offset equal to the prior line count, yields exactly one match
event at line number prior line count plus the 1-based position of the
magic line among the appended lines, and returns a new offset equal to
the prior offset plus the number of appended lines. -/
theorem claim4_append_roundtrip (fn mw : String) (prior pre post : List String)
    (magicLine : String)
    (hpre : ∀ l ∈ pre, containsStr l mw = false)
    (hpost : ∀ l ∈ post, containsStr l mw = false)
    (hm : containsStr magicLine mw = true) :
    find_magic fn (prior ++ (pre ++ magicLine :: post)) prior.length mw
      = (prior.length + (pre.length + 1 + post.length),
         [Event.found fn mw (prior.length + (pre.length + 1))]) := by
  rw [find_magic_spec]
  simp only [Prod.mk.injEq]
  refine ⟨?_, ?_⟩
  · have hemp : (prior ++ (pre ++ magicLine :: post)).isEmpty = false := by simp
    rw [hemp]
    simp only [Bool.false_eq_true, if_false, List.length_append, List.length_cons]
    omega
  · rw [matchesFrom_append fn mw prior.length prior (pre ++ magicLine :: post) 0]
    rw [matchesFrom_skipped fn mw prior.length prior 0 (by omega)]
    rw [matchesFrom_append fn mw prior.length pre (magicLine :: post) (0 + prior.length)]
    rw [matchesFrom_of_no_match fn mw prior.length pre hpre (0 + prior.length)]
    simp only [List.nil_append, matchesFrom]
    rw [if_pos ⟨by omega, hm⟩]
    rw [matchesFrom_of_no_match fn mw prior.length post hpost
      (0 + prior.length + pre.length + 1)]
    have hidx : 0 + prior.length + pre.length + 1 = prior.length + (pre.length + 1) := by
      omega
    rw [hidx]
    simp

/-- Witness for claim C4 at a concrete input: two prior lines, then one
plain appended line, the magic line, and one more plain line. -/
theorem claim4_append_roundtrip_witness :
    find_magic "a.txt" (["p1", "p2"] ++ (["x"] ++ "has magic" :: ["y"])) 2 "magic"
      = (2 + (1 + 1 + 1), [Event.found "a.txt" "magic" (2 + (1 + 1))]) :=
  claim4_append_roundtrip "a.txt" "magic" ["p1", "p2"] ["x"] ["y"] "has magic"
    (by decide) (by decide) (by decide)

/-- Claim C5 counterexample.  The claim says a watch-list key whose name
no longer ends with the extension, while the file is still present in the
directory, is removed with a removed event.  Evaluating watch_dir with
watch-list a.bin at offset 0, extension .txt and the file a.bin still
listed shows the key is kept and no event at all is emitted: the removal
test at src line 37 is membership in the unfiltered directory listing, so
a listed file is never removed whatever its name. -/
theorem claim5_counterexample_key_kept :
    (watch_dir (FS.mk (Except.ok [DirEntry.mk "a.bin" (some [])])) ".txt" "hello"
        [("a.bin", 0)]).files = [("a.bin", 0)]
    ∧ (watch_dir (FS.mk (Except.ok [DirEntry.mk "a.bin" (some [])])) ".txt" "hello"
        [("a.bin", 0)]).events = [] := by
  decide

/-- Claim C5 as amended.  A watch-list entry whose filename is still
present in the directory listing is kept by the cycle and no removed
event is emitted for it, whether or not its name matches the extension:
removal is triggered only by absence from the directory listing. -/
theorem claim5_amended_listed_key_kept (fs : FS) (ext magic : String)
    (files0 : List (String × Nat)) (entries : List DirEntry) (p : String × Nat)
    (h : fs.dir = Except.ok entries) (hp : p ∈ files0)
    (hl : (entries.map DirEntry.name).contains p.1 = true) :
    p ∈ (watch_dir fs ext magic files0).files
    ∧ Event.removed p.1 ∉ (watch_dir fs ext magic files0).events :=
  watch_dir_keep fs ext magic files0 entries p h hp hl

/-- Witness for the amended claim C5 at a concrete input: tracked b.bin
still listed while the extension is .txt. -/
theorem claim5_amended_listed_key_kept_witness :
    ("b.bin", 5) ∈ (watch_dir (FS.mk (Except.ok [DirEntry.mk "b.bin" (some ["l"])])) ".txt"
        "hello" [("b.bin", 5)]).files
    ∧ Event.removed "b.bin" ∉ (watch_dir (FS.mk (Except.ok [DirEntry.mk "b.bin" (some ["l"])]))
        ".txt" "hello" [("b.bin", 5)]).events :=
  claim5_amended_listed_key_kept (FS.mk (Except.ok [DirEntry.mk "b.bin" (some ["l"])]))
    ".txt" "hello" [("b.bin", 5)] [DirEntry.mk "b.bin" (some ["l"])] ("b.bin", 5)
    rfl (by decide) (by decide)

/-- Claim C7.  When the watched path does not exist at listing time the
cycle fails with the OSError ENOENT of os.listdir, the loop logs the
directory-not-found line, the watch-list is unmodified, and the loop
sleeps the fixed 2 second grace period, independent of the configured
interval, before the usual interval sleep that precedes the next
attempt. -/
theorem claim7_missing_directory_grace_period (path ext magic : String) (interval : Nat)
    (fs : FS) (st : LoopState) (h : fs.dir = Except.error Errno.enoent) :
    (watch_dir fs ext magic st.files).err = some (PyErr.osError Errno.enoent)
    ∧ (mainStep path ext magic interval fs st).files = st.files
    ∧ (mainStep path ext magic interval fs st).log
        = st.log ++ [Event.errorDirNotFound path, Event.sleep 2, Event.sleep interval] := by
  have hw : watch_dir fs ext magic st.files =
      { files := st.files, events := [], err := some (PyErr.osError Errno.enoent) } := by
    unfold watch_dir listdir
    rw [h]
  refine ⟨by rw [hw], ?_, ?_⟩
  · simp [mainStep, hw]
  · simp [mainStep, hw, errEvents, handle_error]

/-- Witness for claim C7 at a concrete input: a missing directory, one
tracked file and interval 5. -/
theorem claim7_missing_directory_grace_period_witness :
    (watch_dir (FS.mk (Except.error Errno.enoent)) ".txt" "hello" [("a.txt", 0)]).err
        = some (PyErr.osError Errno.enoent)
    ∧ (mainStep "watched" ".txt" "hello" 5 (FS.mk (Except.error Errno.enoent))
        (LoopState.mk [("a.txt", 0)] [])).files = [("a.txt", 0)]
    ∧ (mainStep "watched" ".txt" "hello" 5 (FS.mk (Except.error Errno.enoent))
        (LoopState.mk [("a.txt", 0)] [])).log
      = [Event.errorDirNotFound "watched", Event.sleep 2, Event.sleep 5] := by
  have h := claim7_missing_directory_grace_period "watched" ".txt" "hello" 5
    (FS.mk (Except.error Errno.enoent)) (LoopState.mk [("a.txt", 0)] []) rfl
  exact ⟨h.1, h.2.1, by simpa using h.2.2⟩

/-- Claim C8.  No error escapes the polling loop: a cycle whose exit flag
reads true ends the loop at once without running the cycle; a cycle whose
flag reads false always proceeds to the next iteration through the total
step function, whatever watch_dir did; over any schedule of cycles with
the flag never set, every cycle executes; and whenever a cycle raised any
exception kind, the step logged an error event.  So the loop terminates
only through the shutdown flag, never through an unrecovered error. -/
theorem claim8_no_error_escapes_loop (path ext magic : String) (interval : Nat)
    (st : LoopState) (fs : FS) (rest : List (Bool × FS)) (sched : List FS) :
    mainRun path ext magic interval st ((true, fs) :: rest) = st
    ∧ mainRun path ext magic interval st ((false, fs) :: rest)
        = mainRun path ext magic interval (mainStep path ext magic interval fs st) rest
    ∧ mainRun path ext magic interval st (sched.map (fun f => (false, f)))
        = sched.foldl (fun s f => mainStep path ext magic interval f s) st
    ∧ ((watch_dir fs ext magic st.files).err.isSome = true →
        ((mainStep path ext magic interval fs st).log.any Event.isError) = true) := by
  refine ⟨rfl, rfl, mainRun_all_false path ext magic interval sched st, ?_⟩
  intro hsome
  cases herr : (watch_dir fs ext magic st.files).err with
  | none =>
    rw [herr] at hsome
    exact absurd hsome (by simp)
  | some e =>
    obtain ⟨ev, hmem, hisErr⟩ := handle_error_has_error path e
    rw [List.any_eq_true]
    refine ⟨ev, ?_, hisErr⟩
    simp only [mainStep, List.append_assoc, List.mem_append]
    right
    right
    left
    simpa [errEvents, herr] using hmem

/-- Witness for claim C8 at a concrete input: a true flag ends the loop
immediately, and a cycle against a missing directory logs an error
event. -/
theorem claim8_no_error_escapes_loop_witness :
    mainRun "d" ".txt" "m" 1 (LoopState.mk [] [])
        [(true, FS.mk (Except.error Errno.enoent))] = LoopState.mk [] []
    ∧ ((mainStep "d" ".txt" "m" 1 (FS.mk (Except.error Errno.enoent))
        (LoopState.mk [] [])).log.any Event.isError) = true := by
  have h := claim8_no_error_escapes_loop "d" ".txt" "m" 1 (LoopState.mk [] [])
    (FS.mk (Except.error Errno.enoent)) [] []
  exact ⟨h.1, h.2.2.2 (by decide)⟩

/-- Claim C9.  For every sequence of cycles from the initial empty
watch-list and every filename that does not end with the configured
extension suffix, the watch-list never contains that filename as a key:
the add phase inserts only names that pass the suffix test, and no other
phase inserts keys. -/
theorem claim9_nonmatching_name_never_tracked (path ext magic : String) (interval : Nat)
    (name : String) (sched : List (Bool × FS)) (hext : endsWithStr name ext = false) :
    ((mainRun path ext magic interval (LoopState.mk [] []) sched).files.all
      fun p => p.1 != name) = true := by
  rw [List.all_eq_true]
  intro p hp
  have h := mainRun_key_absent path ext magic interval name hext sched (LoopState.mk [] [])
    (fun q hq => absurd hq (List.not_mem_nil q)) p hp
  simpa using h

/-- Witness for claim C9 at a concrete input: notes.md does not end with
.txt and never enters the watch-list over a one-cycle schedule listing
both notes.md and a.txt. -/
theorem claim9_nonmatching_name_never_tracked_witness :
    endsWithStr "notes.md" ".txt" = false
    ∧ ((mainRun "d" ".txt" "hello" 1 (LoopState.mk [] [])
        [(false, FS.mk (Except.ok
          [DirEntry.mk "notes.md" (some []), DirEntry.mk "a.txt" (some [])]))]).files.all
      fun p => p.1 != "notes.md") = true :=
  ⟨by decide,
    claim9_nonmatching_name_never_tracked "d" ".txt" "hello" 1 "notes.md"
      [(false, FS.mk (Except.ok
        [DirEntry.mk "notes.md" (some []), DirEntry.mk "a.txt" (some [])]))] (by decide)⟩

end DirWatcher
